import Mathlib

/-!
Verification development for the lambda-deployer deployment engine: the
retention pruner, the function/alias reconciliation pipeline, and the
`Handle` entry point of `cmd/deployer/main.go`.
-/

namespace LambdaDeployer

/-! ### Retention pruner (RetentionPruner, spec section 4.3)

The pruner itself (`aws_helper.ReduceUnAliasedVersions`) is not part of the
sources here; it is modelled from the spec. -/

/-- An alias of a function: a named, mutable pointer to one version id. -/
structure PrunerAlias where
  name : String
  targetVersionId : String
  deriving DecidableEq

/-- Reads a base-10 digit string (tail of a numeral) left to right,
accumulating the value; any non-digit character makes the parse fail. -/
def digitsToNat (acc : Nat) : List Char → Option Nat
  | [] => some acc
  | c :: cs => if c.isDigit then digitsToNat (acc * 10 + (c.toNat - 48)) cs else none

/-- Parses a non-empty all-digit string as a natural number. -/
def parseNat (s : String) : Option Nat :=
  if s.data.isEmpty then none else digitsToNat 0 s.data

/-- Modelled from the spec: the numeric key used by the pruner's ordering
step, which orders candidates by numeric version id ascending; version ids
are integer-valued strings from the backing store, so an id that does not
parse (never produced by the store) keys as 0. -/
def sortKey (v : String) : Nat := (parseNat v).getD 0

/-- Comparison of version ids by numeric value (the pruner's sort relation). -/
def vLE (a b : String) : Prop := sortKey a ≤ sortKey b

instance : DecidableRel vLE := fun a b => inferInstanceAs (Decidable (sortKey a ≤ sortKey b))

instance : IsTotal String vLE := ⟨fun a b => Nat.le_total (sortKey a) (sortKey b)⟩

instance : IsTrans String vLE := ⟨fun _ _ _ h h2 => Nat.le_trans h h2⟩

/-- Modelled from the spec: the set of version ids referenced by some alias,
`referenced = (v.targetVersionId for v in aliases)`. -/
def referenced (aliases : List PrunerAlias) : List String :=
  aliases.map (fun a => a.targetVersionId)

/-- Modelled from the spec: the deletion candidates,
`candidates = versions - referenced - ("$LATEST")`. -/
def candidates (versions : List String) (aliases : List PrunerAlias) : List String :=
  versions.filter (fun v => decide (v ≠ "$LATEST" ∧ v ∉ referenced aliases))

/-- Modelled from the spec: `RetentionPruner.prune` (the function
`aws_helper.ReduceUnAliasedVersions`, absent from the sources): order the
candidates by numeric version id ascending and delete the oldest
`len(candidates) - maxUnaliasedVersions` of them (none when the candidate
count does not exceed the maximum). Returns the deleted version ids. -/
def prune (versions : List String) (aliases : List PrunerAlias)
    (maxUnaliasedVersions : Int) : List String :=
  (List.insertionSort vLE (candidates versions aliases)).take
    (((candidates versions aliases).length : Int) - maxUnaliasedVersions).toNat

/-- Modelled from the spec: the version ids remaining after the pruner has
deleted the selected ids one at a time. -/
def remainingVersions (versions deleted : List String) : List String :=
  versions.filter (fun v => decide (v ∉ deleted))

/-- Modelled from the spec: the number of unaliased, non-`$LATEST` versions
of a function. -/
def unaliasedCount (versions : List String) (aliases : List PrunerAlias) : Nat :=
  (candidates versions aliases).length

/-- C1: for every run of the pruner, regardless of the configured maximum,
the deleted set contains no version id targeted by any alias of the
function, and never contains the sentinel `"$LATEST"`. -/
theorem prune_never_deletes_aliased_or_latest
    (versions : List String) (aliases : List PrunerAlias) (m : Int)
    (v : String) (hv : v ∈ prune versions aliases m) :
    v ∉ referenced aliases ∧ v ≠ "$LATEST" := by
  have h1 : v ∈ List.insertionSort vLE (candidates versions aliases) :=
    List.mem_of_mem_take hv
  have h2 : v ∈ candidates versions aliases :=
    (List.perm_insertionSort vLE _).mem_iff.mp h1
  have h3 := List.mem_filter.mp h2
  have h4 := of_decide_eq_true h3.2
  exact ⟨h4.2, h4.1⟩

/-- Witness for C1: a concrete pruner run in which version "1" is deleted,
is not aliased, and is not `$LATEST`. -/
theorem prune_never_deletes_aliased_or_latest_witness :
    "1" ∈ prune ["$LATEST", "1", "2"] [⟨"live", "2"⟩] 0 ∧
      ("1" ∉ referenced [⟨"live", "2"⟩] ∧ "1" ≠ "$LATEST") :=
  ⟨by decide, prune_never_deletes_aliased_or_latest ["$LATEST", "1", "2"]
    [⟨"live", "2"⟩] 0 "1" (by decide)⟩

/-- C2: the pruner orders deletion candidates by numeric (integer-parsed)
version id ascending and deletes the oldest `len(candidates) - max` of them:
concretely, on unaliased ids 3, 9, 10, 21 with maximum 2 the deleted set is
exactly 3 and 9 (numeric, not lexical, order); in general the deleted count
is `len(candidates) - max` (clamped to the candidate count) and every
deleted id is numerically at most every retained candidate. -/
theorem prune_numeric_order_oldest_first :
    prune ["$LATEST", "10", "3", "21", "9"] [] 2 = ["3", "9"] ∧
    (∀ (versions : List String) (aliases : List PrunerAlias) (m : Int),
      (prune versions aliases m).length
        = min (((candidates versions aliases).length : Int) - m).toNat
            (candidates versions aliases).length) ∧
    (∀ (versions : List String) (aliases : List PrunerAlias) (m : Int)
      (d r : String), d ∈ prune versions aliases m →
      r ∈ candidates versions aliases → r ∉ prune versions aliases m →
      sortKey d ≤ sortKey r) := by
  refine ⟨by decide, ?_, ?_⟩
  · intro versions aliases m
    simp [prune, List.length_take]
  · intro versions aliases m d r hd hr hrn
    simp only [prune] at hd hrn
    have hsorted : List.Sorted vLE (List.insertionSort vLE (candidates versions aliases)) :=
      List.sorted_insertionSort vLE (candidates versions aliases)
    have hsplit := List.take_append_drop
      (((candidates versions aliases).length : Int) - m).toNat
      (List.insertionSort vLE (candidates versions aliases))
    have hpair : List.Pairwise vLE
        ((List.insertionSort vLE (candidates versions aliases)).take
            (((candidates versions aliases).length : Int) - m).toNat ++
          (List.insertionSort vLE (candidates versions aliases)).drop
            (((candidates versions aliases).length : Int) - m).toNat) := by
      rw [hsplit]; exact hsorted
    have hcross := (List.pairwise_append.mp hpair).2.2
    have hrs : r ∈ List.insertionSort vLE (candidates versions aliases) :=
      (List.perm_insertionSort vLE _).mem_iff.mpr hr
    have hrd : r ∈ (List.insertionSort vLE (candidates versions aliases)).drop
        (((candidates versions aliases).length : Int) - m).toNat := by
      rcases List.mem_append.mp (by rw [hsplit]; exact hrs) with h | h
      · exact absurd h hrn
      · exact h
    exact hcross d hd r hrd

/-- Witness for C2: the general oldest-first part applied to the concrete
regression run, showing deleted id "3" keys at most retained candidate "10". -/
theorem prune_numeric_order_oldest_first_witness :
    sortKey "3" ≤ sortKey "10" :=
  prune_numeric_order_oldest_first.2.2 ["$LATEST", "10", "3", "21", "9"] [] 2 "3" "10"
    (by decide) (by decide) (by decide)

/-- Counting helper: filtering a duplicate-free list down to the elements
not in the first `n` places of a permutation of it leaves `length - n`
elements. -/
theorem filter_not_mem_take_length {α : Type} [DecidableEq α]
    (cs s : List α) (n : Nat) (hperm : cs.Perm s) (hnd : cs.Nodup) :
    (cs.filter (fun v => decide (v ∉ s.take n))).length = s.length - n := by
  obtain ⟨del, hdel⟩ : ∃ del, s.take n = del := ⟨_, rfl⟩
  rw [hdel]
  have hsplit : del ++ s.drop n = s := by rw [← hdel]; exact List.take_append_drop n s
  have hsnd : s.Nodup := hperm.nodup_iff.mp hnd
  have hdisj : List.Disjoint del (s.drop n) :=
    List.disjoint_of_nodup_append (by rw [hsplit]; exact hsnd)
  have htake0 : del.filter (fun v => decide (v ∉ del)) = [] :=
    List.filter_eq_nil_iff.mpr (fun a ha => by simp [ha])
  have hdropall : (s.drop n).filter (fun v => decide (v ∉ del)) = s.drop n :=
    List.filter_eq_self.mpr (fun a ha => by
      simp only [decide_eq_true_eq]
      exact fun hmem => hdisj hmem ha)
  have hsf : s.filter (fun v => decide (v ∉ del))
      = (del ++ s.drop n).filter (fun v => decide (v ∉ del)) := by rw [hsplit]
  rw [(hperm.filter (fun v => decide (v ∉ del))).length_eq, hsf, List.filter_append,
    htake0, hdropall, List.nil_append, List.length_drop]

/-- C7: after the pruner runs with maximum `N` on a function whose version
ids are distinct, the number of remaining unaliased, non-`$LATEST` versions
is `min N originalUnaliasedCount`; with `N = 0` every unaliased,
non-`$LATEST` version is deleted; and an empty candidate set yields an
empty deleted set (a no-op, not an error — the modelled pruner is total). -/
theorem prune_retention_bound :
    (∀ (versions : List String) (aliases : List PrunerAlias) (N : Nat),
      versions.Nodup →
      unaliasedCount (remainingVersions versions (prune versions aliases (N : Int))) aliases
        = min N (unaliasedCount versions aliases)) ∧
    (∀ (versions : List String) (aliases : List PrunerAlias) (v : String),
      v ∈ candidates versions aliases → v ∈ prune versions aliases 0) ∧
    (∀ (versions : List String) (aliases : List PrunerAlias) (m : Int),
      candidates versions aliases = [] → prune versions aliases m = []) := by
  refine ⟨?_, ?_, ?_⟩
  · intro versions aliases N hnd
    have hcomm : candidates (remainingVersions versions (prune versions aliases (N : Int))) aliases
        = (candidates versions aliases).filter
            (fun v => decide (v ∉ prune versions aliases (N : Int))) := by
      simp only [candidates, remainingVersions, List.filter_filter]
      exact List.filter_congr (fun a _ => by rw [Bool.and_comm])
    have hcsnd : (candidates versions aliases).Nodup := List.Nodup.filter _ hnd
    have hperm : (candidates versions aliases).Perm
        (List.insertionSort vLE (candidates versions aliases)) :=
      (List.perm_insertionSort vLE _).symm
    have hcount := filter_not_mem_take_length (candidates versions aliases)
      (List.insertionSort vLE (candidates versions aliases))
      (((candidates versions aliases).length : Int) - (N : Int)).toNat hperm hcsnd
    have hslen : (List.insertionSort vLE (candidates versions aliases)).length
        = (candidates versions aliases).length := List.length_insertionSort vLE _
    simp only [unaliasedCount]
    rw [hcomm]
    simp only [prune]
    rw [hcount, hslen]
    omega
  · intro versions aliases v hv
    have h0 : (((candidates versions aliases).length : Int) - (0 : Int)).toNat
        = (List.insertionSort vLE (candidates versions aliases)).length := by
      rw [List.length_insertionSort]; omega
    simp only [prune]
    rw [h0, List.take_length]
    exact (List.perm_insertionSort vLE _).mem_iff.mpr hv
  · intro versions aliases m h
    simp [prune, h]

/-- Witness for C7: the retention-bound part applied to a concrete run with
four versions, no aliases and maximum 1. -/
theorem prune_retention_bound_witness :
    ["$LATEST", "1", "2", "3"].Nodup ∧
    unaliasedCount (remainingVersions ["$LATEST", "1", "2", "3"]
        (prune ["$LATEST", "1", "2", "3"] [] ((1 : Nat) : Int))) []
      = min 1 (unaliasedCount ["$LATEST", "1", "2", "3"] []) :=
  ⟨by decide, prune_retention_bound.1 ["$LATEST", "1", "2", "3"] [] 1 (by decide)⟩

/-! ### The `Handle` entry point (`cmd/deployer/main.go`)

`Handle` is embedded with its external collaborators (AWS session
construction, the JSON decoding of the trigger event, S3 `HeadObject`, and
the three `aws_helper` calls) as explicit inputs: each collaborator's
response is a field of `HandleEnv`, and `Handle` also returns the list of
service calls it issued. Go errors are modelled as the chain of messages
built by `errors.New` and `errors.Wrap`, outermost context first. A Go
runtime panic (nil-map dereference, index out of range) is a distinct
outcome, not an error return. -/

/-- A Go error value as built by `errors.New` and `errors.Wrap`: the chain
of messages, outermost wrap first. -/
abbrev GoErr := List String

/-- Go `strconv.ParseInt(s, 10, 64)`: an optional sign followed by decimal
digits (64-bit overflow is not modelled; no claim exercises it). -/
def parseInt64 (s : String) : Option Int :=
  match s.data with
  | [] => none
  | '-' :: rest => if rest.isEmpty then none else (digitsToNat 0 rest).map (fun n => -(n : Int))
  | '+' :: rest => if rest.isEmpty then none else (digitsToNat 0 rest).map (fun n => (n : Int))
  | l => (digitsToNat 0 l).map (fun n => (n : Int))

/-- `Policy` from main.go. -/
structure Policy where
  maximumUnAliasedVersions : Int
  reduceUnAliasedVersions : Bool
  deriving DecidableEq

/-- `loadPolicy` from main.go: an unset or empty
`DEPLOYER_POLICY_MAX_UNALIASED_VERSIONS` leaves the policy disabled; a
non-empty value must parse as a base-10 integer or the error is returned. -/
def loadPolicy (policyStr : String) : Except GoErr Policy :=
  if policyStr = "" then .ok ⟨0, false⟩
  else
    match parseInt64 policyStr with
    | none => .error ["invalid syntax"]
    | some n => .ok ⟨n, true⟩

/-- The S3 `HeadObject` metadata map of main.go's `getMetadata`, projected
to the seven attributes it reads; `none` models an absent key, whose lookup
in Go's `map` of string pointers yields a nil pointer. -/
structure MetaAttrs where
  description : Option String
  functionName : Option String
  handler : Option String
  runtime : Option String
  memorySize : Option String
  timeout : Option String
  functionAlias : Option String
  deriving DecidableEq

/-- `deployer.FunctionMetadata`: the desired-state record assembled from
the artifact's metadata attributes. -/
structure FunctionMetadata where
  description : String
  functionName : String
  handler : String
  runtime : String
  memorySize : Int
  timeout : Int
  functionAlias : String
  envVars : List (String × String)
  deriving DecidableEq

/-- A JSON whitespace character. -/
def isJsonSpace (c : Char) : Bool := c = ' ' || c = '\t' || c = '\n' || c = '\r'

/-- The characters of `s` with surrounding whitespace removed. -/
def trimmedChars (s : String) : List Char :=
  ((s.data.dropWhile isJsonSpace).reverse.dropWhile isJsonSpace).reverse

/-- Models Go's `encoding/json.Unmarshal` into a string map on the inputs
this development exercises: empty (or all-whitespace) input fails with
"unexpected end of JSON input", exactly as in Go, and the empty JSON object
yields the empty mapping. Richer JSON objects are outside the modelled
fragment and are mapped to a generic error. -/
def goJsonUnmarshalMap (s : String) : Except GoErr (List (String × String)) :=
  if trimmedChars s = [] then .error ["unexpected end of JSON input"]
  else if trimmedChars s = ['\x7b', '\x7d'] then .ok []
  else .error ["json object outside modelled fragment"]

/-- The message of a Go nil-pointer dereference panic. -/
def nilDerefMsg : String := "runtime error: invalid memory address or nil pointer dereference"

/-- The message of a Go index-out-of-range panic. -/
def indexRangeMsg : String := "runtime error: index out of range"

/-- The outcome of `getMetadata`: a metadata record, a returned Go error,
or a Go runtime panic (which does not return to the caller). -/
inductive MetaOutcome where
  | ok (meta : FunctionMetadata)
  | fail (e : GoErr)
  | panicked (msg : String)
  deriving DecidableEq

/-- `getMetadata` from main.go: reads the S3 object's metadata attributes
and the `DEPLOYER_FUNCTION_ENV_VARS` overlay. An absent attribute is a nil
string pointer in Go, so dereferencing it panics: `memorySize` is
dereferenced and parsed first, then `timeout`, then the remaining five
attributes are dereferenced while building the record, and finally the
overlay string is unmarshalled. A `HeadObject` failure is returned as the
bare underlying error; parse and unmarshal failures are wrapped. -/
def getMetadata (envVarsStr : String) (headResp : Except GoErr MetaAttrs) : MetaOutcome :=
  match headResp with
  | .error e => .fail e
  | .ok resp =>
    match resp.memorySize with
    | none => .panicked nilDerefMsg
    | some msStr =>
      match parseInt64 msStr with
      | none => .fail ["cannot parse function-memory-size", "invalid syntax"]
      | some ms =>
        match resp.timeout with
        | none => .panicked nilDerefMsg
        | some toStr =>
          match parseInt64 toStr with
          | none => .fail ["cannot parse function-timeout", "invalid syntax"]
          | some tm =>
            match resp.description, resp.functionName, resp.handler,
                resp.runtime, resp.functionAlias with
            | some de, some fn, some hd, some rt, some al =>
              match goJsonUnmarshalMap envVarsStr with
              | .error e => .fail ("error un-marshaling environmental vars" :: e)
              | .ok kvs => .ok ⟨de, fn, hd, rt, ms, tm, al, kvs⟩
            | _, _, _, _, _ => .panicked nilDerefMsg

/-- One record of the S3 trigger event, projected to the two fields
`Handle` reads. -/
structure S3EventRecord where
  bucketName : String
  objectKey : String
  deriving DecidableEq

/-- The S3 trigger event: a list of records. -/
structure S3EventData where
  records : List S3EventRecord
  deriving DecidableEq

/-- The S3 and Lambda service calls `Handle` can issue, in issue order. -/
inductive ServiceCall where
  | headObjectCall
  | createOrUpdateFunctionCall
  | createOrUpdateAliasCall
  | reduceUnAliasedVersionsCall
  deriving DecidableEq

/-- The outcome of one `Handle` invocation: the returned string/error pair
("ok" with a nil error, or "error" with a cause), or a runtime panic. -/
inductive HandleOutcome where
  | ok
  | err (e : GoErr)
  | panicked (msg : String)
  deriving DecidableEq

/-- One invocation's inputs: the three process environment variables and
the response of each external collaborator. -/
structure HandleEnv where
  roleArn : String
  policyStr : String
  envVarsStr : String
  eventParse : Except GoErr S3EventData
  sessionResult : Except GoErr Unit
  headObjectResp : Except GoErr MetaAttrs
  functionResult : Except GoErr Unit
  aliasResult : Except GoErr Unit
  reduceResult : Except GoErr Unit

/-- `Handle` from main.go, paired with the list of service calls issued:
role check, policy load, event decode, session construction, `Records[0]`
indexing, metadata load, function reconcile, alias reconcile, and — only
when the policy is enabled — pruning. -/
def Handle (env : HandleEnv) : HandleOutcome × List ServiceCall :=
  if env.roleArn = "" then
    (.err ["DEPLOYER_FUNCTION_ROLE_ARN not set"], [])
  else
    match loadPolicy env.policyStr with
    | .error e => (.err ("error loading policy" :: e), [])
    | .ok policy =>
      match env.eventParse with
      | .error e => (.err ("error un-marshaling event json" :: e), [])
      | .ok s3Event =>
        match env.sessionResult with
        | .error e => (.err e, [])
        | .ok _ =>
          match s3Event.records with
          | [] => (.panicked indexRangeMsg, [])
          | _ :: _ =>
            match getMetadata env.envVarsStr env.headObjectResp with
            | .panicked msg => (.panicked msg, [.headObjectCall])
            | .fail e => (.err ("error reading metadata from s3 object" :: e), [.headObjectCall])
            | .ok _ =>
              match env.functionResult with
              | .error e => (.err ("error creating or updating lambda function" :: e),
                  [.headObjectCall, .createOrUpdateFunctionCall])
              | .ok _ =>
                match env.aliasResult with
                | .error e => (.err ("error creating or updating alias" :: e),
                    [.headObjectCall, .createOrUpdateFunctionCall, .createOrUpdateAliasCall])
                | .ok _ =>
                  if policy.reduceUnAliasedVersions then
                    match env.reduceResult with
                    | .error e => (.err ("error deleting UnAliased versions" :: e),
                        [.headObjectCall, .createOrUpdateFunctionCall,
                          .createOrUpdateAliasCall, .reduceUnAliasedVersionsCall])
                    | .ok _ => (.ok,
                        [.headObjectCall, .createOrUpdateFunctionCall,
                          .createOrUpdateAliasCall, .reduceUnAliasedVersionsCall])
                  else
                    (.ok, [.headObjectCall, .createOrUpdateFunctionCall,
                      .createOrUpdateAliasCall])

/-- C8: whenever `DEPLOYER_FUNCTION_ROLE_ARN` is unset or empty, `Handle`
returns the error outcome with the configuration error naming the missing
variable, and issues zero backing-store (Lambda or S3) calls. -/
theorem handle_missing_role_no_calls (env : HandleEnv) (h : env.roleArn = "") :
    Handle env = (.err ["DEPLOYER_FUNCTION_ROLE_ARN not set"], []) := by
  simp [Handle, h]

/-- Witness for C8 at a concrete environment. -/
theorem handle_missing_role_no_calls_witness :
    Handle ⟨"", "", "", .ok ⟨[]⟩, .ok (), .error ["x"], .ok (), .ok (), .ok ()⟩
      = (.err ["DEPLOYER_FUNCTION_ROLE_ARN not set"], []) :=
  handle_missing_role_no_calls
    ⟨"", "", "", .ok ⟨[]⟩, .ok (), .error ["x"], .ok (), .ok (), .ok ()⟩ rfl

/-- C10: with the role set, a policy that parses, and an event that decodes
to an empty record list (the AWS session construction, which the code runs
before indexing, succeeding), `Handle` panics with index out of range on
`Records[0]` instead of returning the error outcome. -/
theorem handle_empty_records_panics (env : HandleEnv)
    (hrole : env.roleArn ≠ "") (hpol : ∃ p, loadPolicy env.policyStr = .ok p)
    (hevt : env.eventParse = .ok ⟨[]⟩) (hses : env.sessionResult = .ok ()) :
    Handle env = (.panicked indexRangeMsg, []) := by
  obtain ⟨p, hp⟩ := hpol
  simp [Handle, hrole, hp, hevt, hses]

/-- Witness for C10 at a concrete environment. -/
theorem handle_empty_records_panics_witness :
    Handle ⟨"role", "", "", .ok ⟨[]⟩, .ok (), .error ["x"], .ok (), .ok (), .ok ()⟩
      = (.panicked indexRangeMsg, []) :=
  handle_empty_records_panics
    ⟨"role", "", "", .ok ⟨[]⟩, .ok (), .error ["x"], .ok (), .ok (), .ok ()⟩
    (by decide) ⟨⟨0, false⟩, rfl⟩ rfl rfl

/-- C4 (code bug): a `headObject` response lacking a mandatory attribute —
here `function-memory-size`; the same holds for the other six — makes
`getMetadata` dereference a nil string pointer and panic instead of
returning a configuration error. The invocation crashes right after the
single read-only `HeadObject` call, so no mutating backing-store call is
ever issued, but no error is returned to the caller either. -/
theorem getMetadata_missing_attribute_panics :
    getMetadata ""
        (.ok ⟨some "d", some "f", some "h", some "go1.x", none, some "3", some "live"⟩)
      = .panicked nilDerefMsg ∧
    Handle ⟨"role", "", "", .ok ⟨[⟨"b", "k"⟩]⟩, .ok (),
        .ok ⟨some "d", some "f", some "h", some "go1.x", none, some "3", some "live"⟩,
        .ok (), .ok (), .ok ()⟩
      = (.panicked nilDerefMsg, [ServiceCall.headObjectCall]) := by
  constructor <;> rfl

/-- C6 (code bug): with every mandatory attribute present and parseable but
`DEPLOYER_FUNCTION_ENV_VARS` unset or empty, `getMetadata` does not default
the overlay to an empty mapping: `json.Unmarshal` of empty input fails, the
wrapped error is returned, and `Handle` surfaces it as a metadata-stage
failure instead of succeeding. -/
theorem getMetadata_empty_env_vars_fails :
    getMetadata ""
        (.ok ⟨some "d", some "f", some "h", some "go1.x", some "128", some "3", some "live"⟩)
      = .fail ["error un-marshaling environmental vars", "unexpected end of JSON input"] ∧
    Handle ⟨"role", "", "", .ok ⟨[⟨"b", "k"⟩]⟩, .ok (),
        .ok ⟨some "d", some "f", some "h", some "go1.x", some "128", some "3", some "live"⟩,
        .ok (), .ok (), .ok ()⟩
      = (.err ["error reading metadata from s3 object",
          "error un-marshaling environmental vars", "unexpected end of JSON input"],
         [ServiceCall.headObjectCall]) := by
  constructor <;> rfl

/-- All stages of one invocation succeed: role configured, policy parses,
event decodes with at least one record, session constructed, metadata
loads, function and alias reconcile succeed, and pruning (when the policy
enables it) succeeds. -/
def allStagesOk (env : HandleEnv) : Prop :=
  env.roleArn ≠ "" ∧
  (∃ p, loadPolicy env.policyStr = .ok p ∧
    (p.reduceUnAliasedVersions = true → env.reduceResult = .ok ())) ∧
  (∃ ev, env.eventParse = .ok ev ∧ ev.records ≠ []) ∧
  env.sessionResult = .ok () ∧
  (∃ m, getMetadata env.envVarsStr env.headObjectResp = .ok m) ∧
  env.functionResult = .ok () ∧
  env.aliasResult = .ok ()

/-- C5 (counterexample to the claim as stated): a run in which only AWS
session construction fails. `Handle` returns the error outcome, but the
cause is the bare underlying error — no stage name or added context wraps
it, contradicting the claim that every failure carries the failing stage's
name. -/
theorem handle_session_failure_unwrapped :
    Handle ⟨"role", "", "", .ok ⟨[⟨"b", "k"⟩]⟩, .error ["boom"], .error ["x"],
        .ok (), .ok (), .ok ()⟩
      = (.err ["boom"], []) := by
  rfl

/-- C5 (amended): `Handle` returns `"ok"` exactly when every stage
completed; every returned error is either a pipeline failure wrapped with
its stage's context message, the missing-role configuration error, or — the
one path the code leaves unwrapped — the AWS session-construction failure
returned as the bare underlying error. The pipeline stops at the first
failure: each error case pins the failing collaborator's response. -/
theorem handle_outcome_contract (env : HandleEnv) :
    ((Handle env).1 = .ok ↔ allStagesOk env) ∧
    (∀ e, (Handle env).1 = .err e →
      e = ["DEPLOYER_FUNCTION_ROLE_ARN not set"] ∨
      (∃ e0, e = "error loading policy" :: e0 ∧ loadPolicy env.policyStr = .error e0) ∨
      (∃ e0, e = "error un-marshaling event json" :: e0 ∧ env.eventParse = .error e0) ∨
      env.sessionResult = .error e ∨
      (∃ e0, e = "error reading metadata from s3 object" :: e0 ∧
        getMetadata env.envVarsStr env.headObjectResp = .fail e0) ∨
      (∃ e0, e = "error creating or updating lambda function" :: e0 ∧
        env.functionResult = .error e0) ∨
      (∃ e0, e = "error creating or updating alias" :: e0 ∧
        env.aliasResult = .error e0) ∨
      (∃ e0, e = "error deleting UnAliased versions" :: e0 ∧
        env.reduceResult = .error e0)) := by
  obtain ⟨role, pol, evs, evp, ses, head, fnr, alr, red⟩ := env
  by_cases hrole : role = ""
  · refine ⟨by simp [Handle, hrole, allStagesOk], ?_⟩
    intro e he
    simp [Handle, hrole] at he
    subst he
    exact Or.inl rfl
  · cases hpol : loadPolicy pol with
    | error e1 =>
      refine ⟨by simp [Handle, hrole, hpol, allStagesOk], ?_⟩
      intro e he
      simp [Handle, hrole, hpol] at he
      subst he
      exact Or.inr (Or.inl ⟨e1, rfl, rfl⟩)
    | ok p =>
      cases evp with
      | error e1 =>
        refine ⟨by simp [Handle, hrole, hpol, allStagesOk], ?_⟩
        intro e he
        simp [Handle, hrole, hpol] at he
        subst he
        exact Or.inr (Or.inr (Or.inl ⟨e1, rfl, rfl⟩))
      | ok sev =>
        cases ses with
        | error e1 =>
          refine ⟨by simp [Handle, hrole, hpol, allStagesOk], ?_⟩
          intro e he
          simp [Handle, hrole, hpol] at he
          subst he
          exact Or.inr (Or.inr (Or.inr (Or.inl rfl)))
        | ok u =>
          cases u
          cases hrec : sev.records with
          | nil =>
            refine ⟨by simp [Handle, hrole, hpol, hrec, allStagesOk], ?_⟩
            intro e he
            simp [Handle, hrole, hpol, hrec] at he
          | cons r rs =>
            cases hmeta : getMetadata evs head with
            | panicked m =>
              refine ⟨by simp [Handle, hrole, hpol, hrec, hmeta, allStagesOk], ?_⟩
              intro e he
              simp [Handle, hrole, hpol, hrec, hmeta] at he
            | fail e1 =>
              refine ⟨by simp [Handle, hrole, hpol, hrec, hmeta, allStagesOk], ?_⟩
              intro e he
              simp [Handle, hrole, hpol, hrec, hmeta] at he
              subst he
              exact Or.inr (Or.inr (Or.inr (Or.inr (Or.inl ⟨e1, rfl, rfl⟩))))
            | ok mm =>
              cases fnr with
              | error e1 =>
                refine ⟨by simp [Handle, hrole, hpol, hrec, hmeta, allStagesOk], ?_⟩
                intro e he
                simp [Handle, hrole, hpol, hrec, hmeta] at he
                subst he
                exact Or.inr (Or.inr (Or.inr (Or.inr (Or.inr (Or.inl ⟨e1, rfl, rfl⟩)))))
              | ok u =>
                cases u
                cases alr with
                | error e1 =>
                  refine ⟨by simp [Handle, hrole, hpol, hrec, hmeta, allStagesOk], ?_⟩
                  intro e he
                  simp [Handle, hrole, hpol, hrec, hmeta] at he
                  subst he
                  exact Or.inr (Or.inr (Or.inr (Or.inr (Or.inr (Or.inr
                    (Or.inl ⟨e1, rfl, rfl⟩))))))
                | ok u =>
                  cases u
                  by_cases hred : p.reduceUnAliasedVersions = true
                  · cases red with
                    | error e1 =>
                      refine ⟨by simp [Handle, hrole, hpol, hrec, hmeta, hred,
                        allStagesOk], ?_⟩
                      intro e he
                      simp [Handle, hrole, hpol, hrec, hmeta, hred] at he
                      subst he
                      exact Or.inr (Or.inr (Or.inr (Or.inr (Or.inr (Or.inr (Or.inr
                        ⟨e1, rfl, rfl⟩))))))
                    | ok u =>
                      cases u
                      refine ⟨?_, ?_⟩
                      · simp only [allStagesOk]
                        constructor
                        · intro _
                          refine ⟨hrole, ⟨p, hpol, ?_⟩, ⟨sev, rfl, ?_⟩, ?_,
                            ⟨mm, hmeta⟩, ?_, ?_⟩ <;> simp [hrec, hred]
                        · intro _
                          simp [Handle, hrole, hpol, hrec, hmeta, hred]
                      · intro e he
                        simp [Handle, hrole, hpol, hrec, hmeta, hred] at he
                  · cases red with
                    | error e1 =>
                      refine ⟨?_, ?_⟩
                      · simp only [allStagesOk]
                        constructor
                        · intro _
                          refine ⟨hrole, ⟨p, hpol, ?_⟩, ⟨sev, rfl, ?_⟩, ?_,
                            ⟨mm, hmeta⟩, ?_, ?_⟩ <;> simp [hrec, hred]
                        · intro _
                          simp [Handle, hrole, hpol, hrec, hmeta, hred]
                      · intro e he
                        simp [Handle, hrole, hpol, hrec, hmeta, hred] at he
                    | ok u =>
                      cases u
                      refine ⟨?_, ?_⟩
                      · simp only [allStagesOk]
                        constructor
                        · intro _
                          refine ⟨hrole, ⟨p, hpol, ?_⟩, ⟨sev, rfl, ?_⟩, ?_,
                            ⟨mm, hmeta⟩, ?_, ?_⟩ <;> simp [hrec, hred]
                        · intro _
                          simp [Handle, hrole, hpol, hrec, hmeta, hred]
                      · intro e he
                        simp [Handle, hrole, hpol, hrec, hmeta, hred] at he

/-- Witness for C5 (amended): at a fully successful concrete environment
the contract yields the ok outcome. -/
theorem handle_outcome_contract_witness :
    (Handle ⟨"role", "2", "\x7b\x7d", .ok ⟨[⟨"b", "k"⟩]⟩, .ok (),
        .ok ⟨some "d", some "f", some "h", some "go1.x", some "128", some "3", some "live"⟩,
        .ok (), .ok (), .ok ()⟩).1 = .ok :=
  (handle_outcome_contract
    ⟨"role", "2", "\x7b\x7d", .ok ⟨[⟨"b", "k"⟩]⟩, .ok (),
      .ok ⟨some "d", some "f", some "h", some "go1.x", some "128", some "3", some "live"⟩,
      .ok (), .ok (), .ok ()⟩).1.mpr
    ⟨by decide, ⟨⟨2, true⟩, rfl, fun _ => rfl⟩,
      ⟨⟨[⟨"b", "k"⟩]⟩, rfl, by decide⟩, rfl,
      ⟨⟨"d", "f", "h", "go1.x", 128, 3, "live", []⟩, rfl⟩, rfl, rfl⟩

/-- Pre-prune stages of one invocation succeed: role configured, event
decodes with at least one record, session constructed, metadata loads, and
the function and alias reconciliations succeed. -/
def prePruneOk (env : HandleEnv) : Prop :=
  env.roleArn ≠ "" ∧
  (∃ ev, env.eventParse = .ok ev ∧ ev.records ≠ []) ∧
  env.sessionResult = .ok () ∧
  (∃ m, getMetadata env.envVarsStr env.headObjectResp = .ok m) ∧
  env.functionResult = .ok () ∧
  env.aliasResult = .ok ()

/-- C9 (counterexample to the claim as stated): with the policy variable
set to the non-empty but unparseable value "ten", the pruning stage does
not run and the pipeline does not complete — the policy load fails before
any stage and `Handle` returns the error outcome with an empty call trace,
refuting "the pruning stage runs if and only if the variable is set to a
non-empty value". -/
theorem handle_unparseable_policy_no_prune :
    Handle ⟨"role", "ten", "", .ok ⟨[⟨"b", "k"⟩]⟩, .ok (), .error ["x"],
        .ok (), .ok (), .ok ()⟩
      = (.err ["error loading policy", "invalid syntax"], []) ∧
    ("ten" : String) ≠ "" := by
  exact ⟨rfl, by decide⟩

/-- C9 (amended): in a run whose pre-prune stages all succeed, the pruner
is invoked exactly when `DEPLOYER_POLICY_MAX_UNALIASED_VERSIONS` is
non-empty and parses as an integer; when it is unset or empty the pipeline
completes successfully without invoking the pruner — the skip is not a
failure. -/
theorem prune_gate_iff (env : HandleEnv) (hpre : prePruneOk env) :
    (ServiceCall.reduceUnAliasedVersionsCall ∈ (Handle env).2 ↔
      (env.policyStr ≠ "" ∧ ∃ n, parseInt64 env.policyStr = some n)) ∧
    (env.policyStr = "" →
      (Handle env).1 = .ok ∧
        ServiceCall.reduceUnAliasedVersionsCall ∉ (Handle env).2) := by
  obtain ⟨role, pol, evs, evp, ses, head, fnr, alr, red⟩ := env
  obtain ⟨hrole, ⟨sev, hevp, hne⟩, hses, ⟨mm, hmeta⟩, hfnr, halr⟩ := hpre
  subst hevp
  subst hses
  subst hfnr
  subst halr
  cases hrec : sev.records with
  | nil => exact absurd hrec hne
  | cons r rs =>
    by_cases hpol : pol = ""
    · refine ⟨?_, fun _ => ?_⟩
      · simp [Handle, loadPolicy, hrole, hpol, hrec, hmeta]
      · constructor <;> simp [Handle, loadPolicy, hrole, hpol, hrec, hmeta]
    · cases hpi : parseInt64 pol with
      | none =>
        refine ⟨?_, fun h => absurd h hpol⟩
        simp [Handle, loadPolicy, hrole, hpol, hpi, hrec, hmeta]
      | some n =>
        refine ⟨?_, fun h => absurd h hpol⟩
        cases red with
        | error e1 =>
          simp only [Handle, loadPolicy, hrole, hpol, hpi, hrec, hmeta]
          constructor
          · intro _
            exact ⟨hpol, n, rfl⟩
          · intro _
            simp [Handle, loadPolicy, hrole, hpol, hpi, hrec, hmeta]
        | ok u =>
          cases u
          constructor
          · intro _
            exact ⟨hpol, n, rfl⟩
          · intro _
            simp [Handle, loadPolicy, hrole, hpol, hpi, hrec, hmeta]

/-- Witness for C9 (amended): a concrete run with the policy set to "3"
and every stage succeeding, in which the pruner is invoked. -/
theorem prune_gate_iff_witness :
    ServiceCall.reduceUnAliasedVersionsCall ∈
      (Handle ⟨"role", "3", "\x7b\x7d", .ok ⟨[⟨"b", "k"⟩]⟩, .ok (),
        .ok ⟨some "d", some "f", some "h", some "go1.x", some "128", some "3", some "live"⟩,
        .ok (), .ok (), .ok ()⟩).2 :=
  (prune_gate_iff
    ⟨"role", "3", "\x7b\x7d", .ok ⟨[⟨"b", "k"⟩]⟩, .ok (),
      .ok ⟨some "d", some "f", some "h", some "go1.x", some "128", some "3", some "live"⟩,
      .ok (), .ok (), .ok ()⟩
    ⟨by decide, ⟨⟨[⟨"b", "k"⟩]⟩, rfl, by decide⟩, rfl,
      ⟨⟨"d", "f", "h", "go1.x", 128, 3, "live", []⟩, rfl⟩, rfl, rfl⟩).1.mpr
    ⟨by decide, 3, rfl⟩

/-! ### Full pipeline (FunctionReconciler, AliasReconciler, orchestration)

The reconcilers (`aws_helper.CreateOrUpdateFunction` and
`aws_helper.CreateOrUpdateAlias`) are not under the sources here; the
pipeline over an explicit backing store is modelled from spec sections
4.1, 4.2 and 4.4. -/

/-- The configuration fields of a function, as carried by the desired-state
descriptor and snapshotted into published versions. -/
structure ConfigFields where
  handler : String
  runtime : String
  memorySize : Int
  timeoutSeconds : Int
  description : String
  environmentVariables : List (String × String)
  deriving DecidableEq

/-- Modelled from the spec: the DesiredStateDescriptor value type (spec
section 3). -/
structure DesiredStateDescriptor where
  name : String
  handler : String
  runtime : String
  memorySize : Int
  timeoutSeconds : Int
  description : String
  aliasName : String
  environmentVariables : List (String × String)
  deriving DecidableEq

/-- The configuration fields of a descriptor. -/
def DesiredStateDescriptor.configFields (d : DesiredStateDescriptor) : ConfigFields :=
  ⟨d.handler, d.runtime, d.memorySize, d.timeoutSeconds, d.description,
    d.environmentVariables⟩

/-- A published, immutable version in the backing store. -/
structure StoreVersion where
  id : Nat
  codeHash : String
  configurationSnapshot : ConfigFields
  deriving DecidableEq

/-- An alias record in the backing store. -/
structure StoreAlias where
  name : String
  targetVersionId : Nat
  deriving DecidableEq

/-- A function record in the backing store: the mutable `$LATEST` code and
configuration, the published versions, the next version number the store
will assign, and the function's aliases. -/
structure FunctionRecord where
  latestCodeHash : String
  configuration : ConfigFields
  versions : List StoreVersion
  nextVersionId : Nat
  aliases : List StoreAlias

/-- The backing store, keyed by function name. -/
def Store := String → Option FunctionRecord

/-- Writes the record stored under a function name. -/
def putFunction (s : Store) (n : String) (r : FunctionRecord) : Store :=
  fun m => if m = n then some r else s m

/-- Modelled from the spec: `FunctionReconciler.reconcile` (the missing
`aws_helper.CreateOrUpdateFunction`, spec 4.1): when the function does not
exist, create it with the artifact's code and the descriptor's
configuration, creation bundling an initial published version; when it
exists, update the code and every configuration field unconditionally and
then publish a new immutable version. `createdRecord` is the record made
by the create path. -/
def createdRecord (artifactCodeHash : String) (d : DesiredStateDescriptor) :
    FunctionRecord :=
  ⟨artifactCodeHash, d.configFields, [⟨1, artifactCodeHash, d.configFields⟩], 2, []⟩

/-- The record after the update path of one function reconciliation: new
code, the descriptor's configuration, and one more published version. -/
def updatedRecord (f : FunctionRecord) (artifactCodeHash : String)
    (d : DesiredStateDescriptor) : FunctionRecord :=
  { f with
    latestCodeHash := artifactCodeHash
    configuration := d.configFields
    versions := f.versions ++ [⟨f.nextVersionId, artifactCodeHash, d.configFields⟩]
    nextVersionId := f.nextVersionId + 1 }

/-- Modelled from the spec: `FunctionReconciler.reconcile` (the missing
`aws_helper.CreateOrUpdateFunction`, spec 4.1), continued: dispatch on
existence and return the new store with the single published version. -/
def reconcileFunction (s : Store) (artifactCodeHash : String)
    (d : DesiredStateDescriptor) : Store × StoreVersion :=
  match s d.name with
  | none =>
    (putFunction s d.name (createdRecord artifactCodeHash d),
     ⟨1, artifactCodeHash, d.configFields⟩)
  | some f =>
    (putFunction s d.name (updatedRecord f artifactCodeHash d),
     ⟨f.nextVersionId, artifactCodeHash, d.configFields⟩)

/-- Repoints every alias of the given name at the version id. -/
def repoint (l : List StoreAlias) (aliasName : String) (versionId : Nat) :
    List StoreAlias :=
  l.map (fun a => if a.name == aliasName then ⟨aliasName, versionId⟩ else a)

/-- Modelled from the spec: `AliasReconciler.reconcile` (the missing
`aws_helper.CreateOrUpdateAlias`, spec 4.2): create the alias pointing at
the version when absent, otherwise repoint it unconditionally. -/
def reconcileAlias (s : Store) (fname aliasName : String) (versionId : Nat) : Store :=
  match s fname with
  | none => s
  | some f =>
    match f.aliases.find? (fun a => a.name == aliasName) with
    | none => putFunction s fname { f with aliases := f.aliases ++ [⟨aliasName, versionId⟩] }
    | some _ => putFunction s fname { f with aliases := repoint f.aliases aliasName versionId }

/-- Modelled from the spec: the pruning stage applied to the stored
function — delete the version ids selected by `prune` from the version
list (spec 4.3, over the pipeline's store); `survivingVersions` are the
versions the pruner keeps. -/
def survivingVersions (f : FunctionRecord) (maxU : Int) : List StoreVersion :=
  f.versions.filter (fun v => decide (toString v.id ∉
    prune (f.versions.map (fun w => toString w.id))
      (f.aliases.map (fun a => ⟨a.name, toString a.targetVersionId⟩)) maxU))

/-- Modelled from the spec: the pruning stage applied to the stored
function, continued: replace the version list by the survivors. -/
def pruneFunction (s : Store) (fname : String) (maxU : Int) : Store :=
  match s fname with
  | none => s
  | some f => putFunction s fname { f with versions := survivingVersions f maxU }

/-- Modelled from the spec: the DeploymentOrchestrator's pipeline for one
artifact (spec 4.4) — reconcile the function, repoint the alias to the
just-published version, and prune exactly when the retention policy is
enabled. Returns the final store and the one version published by the run. -/
def pipeline (s : Store) (artifactCodeHash : String) (d : DesiredStateDescriptor)
    (policy : Option Int) : Store × StoreVersion :=
  match policy with
  | none =>
    (reconcileAlias (reconcileFunction s artifactCodeHash d).1 d.name d.aliasName
      (reconcileFunction s artifactCodeHash d).2.id,
     (reconcileFunction s artifactCodeHash d).2)
  | some m =>
    (pruneFunction
      (reconcileAlias (reconcileFunction s artifactCodeHash d).1 d.name d.aliasName
        (reconcileFunction s artifactCodeHash d).2.id) d.name m,
     (reconcileFunction s artifactCodeHash d).2)

/-- The configuration of the function stored under a name. -/
def functionConfigurationOf (s : Store) (fname : String) : Option ConfigFields :=
  (s fname).map (fun f => f.configuration)

/-- The target version id of the named alias of a stored function. -/
def aliasTargetOf (s : Store) (fname aliasName : String) : Option Nat :=
  match s fname with
  | none => none
  | some f =>
    (f.aliases.find? (fun a => a.name == aliasName)).map (fun a => a.targetVersionId)

/-- Exactly one new version is created in the store by the function
reconciliation of one run: the stored version list afterwards is the prior
list extended by precisely the returned published version. -/
def publishesExactlyOne (s : Store) (code : String) (d : DesiredStateDescriptor) : Prop :=
  match s d.name with
  | none => ((reconcileFunction s code d).1 d.name).map (fun g => g.versions)
      = some [(reconcileFunction s code d).2]
  | some f => ((reconcileFunction s code d).1 d.name).map (fun g => g.versions)
      = some (f.versions ++ [(reconcileFunction s code d).2])

/-- Reading back the name just written. -/
theorem putFunction_get (s : Store) (n : String) (r : FunctionRecord) :
    putFunction s n r n = some r := by
  simp [putFunction]

/-- A `find?` miss followed by appending a matching element finds it. -/
theorem find?_append_none (p : StoreAlias → Bool) (x : StoreAlias)
    (hx : p x = true) :
    ∀ (l : List StoreAlias), l.find? p = none → (l ++ [x]).find? p = some x := by
  intro l
  induction l with
  | nil => intro _; simp [List.find?, hx]
  | cons b t ih =>
    intro h
    rw [List.find?_cons] at h
    cases hb : p b with
    | true => simp [hb] at h
    | false =>
      rw [List.cons_append, List.find?_cons, hb]
      exact ih (by simpa [hb] using h)

/-- Repointing every alias of a name makes `find?` on that name return the
repointed alias, provided some alias of that name was present. -/
theorem find?_repoint (an : String) (vid : Nat) :
    ∀ (l : List StoreAlias) (a : StoreAlias),
      l.find? (fun x => x.name == an) = some a →
      (repoint l an vid).find? (fun x => x.name == an) = some ⟨an, vid⟩ := by
  intro l
  induction l with
  | nil => intro a h; simp at h
  | cons b t ih =>
    intro a h
    cases hb : (b.name == an) with
    | true =>
      simp only [repoint, List.map, List.find?_cons, hb, if_true]
      simp
    | false =>
      rw [List.find?_cons, hb] at h
      simp only [repoint, List.map, List.find?_cons, hb, if_false]
      have := ih a (by simpa using h)
      simpa [repoint, hb] using this

/-- What one function reconciliation guarantees: the record stored under
the descriptor's name has the descriptor's configuration and a next
version number one past the published version, and the published version
snapshots the artifact code and the descriptor's configuration. -/
theorem reconcileFunction_spec (s : Store) (code : String) (d : DesiredStateDescriptor) :
    ∃ g, (reconcileFunction s code d).1 d.name = some g ∧
      g.configuration = d.configFields ∧
      g.nextVersionId = (reconcileFunction s code d).2.id + 1 ∧
      (reconcileFunction s code d).2.codeHash = code ∧
      (reconcileFunction s code d).2.configurationSnapshot = d.configFields := by
  cases h : s d.name with
  | none =>
    refine ⟨createdRecord code d, ?_, rfl, ?_, ?_, ?_⟩ <;>
      simp [reconcileFunction, createdRecord, h, putFunction_get]
  | some f =>
    refine ⟨updatedRecord f code d, ?_, rfl, ?_, ?_, ?_⟩ <;>
      simp [reconcileFunction, updatedRecord, h, putFunction_get]

/-- On the update path the published version's id is the stored record's
next version number. -/
theorem reconcileFunction_found_id (s : Store) (code : String)
    (d : DesiredStateDescriptor) (f : FunctionRecord) (h : s d.name = some f) :
    (reconcileFunction s code d).2.id = f.nextVersionId := by
  simp [reconcileFunction, h]

/-- What one alias reconciliation guarantees: the function record keeps its
configuration, versions and next version number, and the named alias now
targets the given version id. -/
theorem reconcileAlias_spec (s : Store) (fname an : String) (vid : Nat)
    (f : FunctionRecord) (h : s fname = some f) :
    ∃ g, reconcileAlias s fname an vid fname = some g ∧
      g.configuration = f.configuration ∧ g.versions = f.versions ∧
      g.nextVersionId = f.nextVersionId ∧
      (g.aliases.find? (fun a => a.name == an)).map (fun a => a.targetVersionId)
        = some vid := by
  cases hf : f.aliases.find? (fun a => a.name == an) with
  | none =>
    refine ⟨{ f with aliases := f.aliases ++ [⟨an, vid⟩] }, ?_, rfl, rfl, rfl, ?_⟩
    · simp [reconcileAlias, h, hf, putFunction_get]
    · show ((f.aliases ++ [(⟨an, vid⟩ : StoreAlias)]).find?
          (fun a => a.name == an)).map (fun a => a.targetVersionId) = some vid
      rw [find?_append_none (fun a => a.name == an) ⟨an, vid⟩ (by simp) f.aliases hf]
      rfl
  | some a =>
    refine ⟨{ f with aliases := repoint f.aliases an vid }, ?_, rfl, rfl, rfl, ?_⟩
    · simp [reconcileAlias, h, hf, putFunction_get]
    · show ((repoint f.aliases an vid).find? (fun a => a.name == an)).map
        (fun a => a.targetVersionId) = some vid
      rw [find?_repoint an vid f.aliases a hf]
      rfl

/-- What the pruning stage guarantees: the function record keeps its
configuration, next version number and aliases. -/
theorem pruneFunction_spec (s : Store) (fname : String) (m : Int)
    (f : FunctionRecord) (h : s fname = some f) :
    ∃ g, pruneFunction s fname m fname = some g ∧
      g.configuration = f.configuration ∧ g.nextVersionId = f.nextVersionId ∧
      g.aliases = f.aliases := by
  refine ⟨{ f with versions := survivingVersions f m }, ?_, rfl, rfl, rfl⟩
  simp [pruneFunction, h, putFunction_get]

/-- What one full pipeline run guarantees: the stored record carries the
descriptor's configuration and the next version number one past the run's
published version, the alias targets the published version, and the
published version snapshots the artifact code and the configuration. -/
theorem pipeline_state_spec (s : Store) (code : String)
    (d : DesiredStateDescriptor) (policy : Option Int) :
    ∃ g, (pipeline s code d policy).1 d.name = some g ∧
      g.configuration = d.configFields ∧
      g.nextVersionId = (pipeline s code d policy).2.id + 1 ∧
      aliasTargetOf (pipeline s code d policy).1 d.name d.aliasName
        = some (pipeline s code d policy).2.id ∧
      (pipeline s code d policy).2.codeHash = code ∧
      (pipeline s code d policy).2.configurationSnapshot = d.configFields := by
  obtain ⟨g1, hg1, hcfg1, hnext1, hcode1, hsnap1⟩ := reconcileFunction_spec s code d
  obtain ⟨g2, hg2, hcfg2, hver2, hnext2, hfind2⟩ :=
    reconcileAlias_spec (reconcileFunction s code d).1 d.name d.aliasName
      (reconcileFunction s code d).2.id g1 hg1
  cases policy with
  | none =>
    refine ⟨g2, hg2, ?_, ?_, ?_, hcode1, hsnap1⟩
    · rw [hcfg2, hcfg1]
    · exact hnext2.trans hnext1
    · show aliasTargetOf (reconcileAlias (reconcileFunction s code d).1 d.name
        d.aliasName (reconcileFunction s code d).2.id) d.name d.aliasName = _
      rw [aliasTargetOf, hg2]
      exact hfind2
  | some m =>
    obtain ⟨g3, hg3, hcfg3, hnext3, hali3⟩ :=
      pruneFunction_spec (reconcileAlias (reconcileFunction s code d).1 d.name
        d.aliasName (reconcileFunction s code d).2.id) d.name m g2 hg2
    refine ⟨g3, hg3, ?_, ?_, ?_, hcode1, hsnap1⟩
    · rw [hcfg3, hcfg2, hcfg1]
    · exact ((hnext3.trans hnext2).trans hnext1)
    · show aliasTargetOf (pruneFunction (reconcileAlias (reconcileFunction s code d).1
        d.name d.aliasName (reconcileFunction s code d).2.id) d.name m) d.name
          d.aliasName = _
      rw [aliasTargetOf, hg3]
      show (g3.aliases.find? (fun a => a.name == d.aliasName)).map
        (fun a => a.targetVersionId) = some (pipeline s code d (some m)).2.id
      rw [hali3]
      exact hfind2

/-- Every function reconciliation publishes exactly one new version. -/
theorem publishesExactlyOne_always (s : Store) (code : String)
    (d : DesiredStateDescriptor) : publishesExactlyOne s code d := by
  cases h : s d.name with
  | none => simp [publishesExactlyOne, reconcileFunction, createdRecord, h, putFunction_get]
  | some f => simp [publishesExactlyOne, reconcileFunction, updatedRecord, h, putFunction_get]

/-- A store holding no functions. -/
def emptyStore : Store := fun _ => none

/-- A concrete descriptor used for the double-run counterexample. -/
def d0 : DesiredStateDescriptor := ⟨"fn", "h", "go1.x", 128, 3, "demo", "live", []⟩

/-- C3 (counterexample to the claim as stated): running the full pipeline
twice from the empty store with the same artifact and descriptor repoints
the alias to a fresh version each time — the final alias target version id
is 1 after the first run and 2 after the second, so the two invocations do
not yield the same final alias target (as stored in the alias record),
precisely because each run publishes one new version. -/
theorem pipeline_twice_alias_target_differs :
    aliasTargetOf (pipeline emptyStore "h1" d0 none).1 "fn" "live" = some 1 ∧
    aliasTargetOf (pipeline (pipeline emptyStore "h1" d0 none).1 "h1" d0 none).1
      "fn" "live" = some 2 ∧
    aliasTargetOf (pipeline emptyStore "h1" d0 none).1 "fn" "live"
      ≠ aliasTargetOf (pipeline (pipeline emptyStore "h1" d0 none).1 "h1" d0 none).1
          "fn" "live" := by
  exact ⟨rfl, rfl, by decide⟩

/-- C3 (amended): running the full pipeline twice with the same artifact
and descriptor, from any starting store and with or without the retention
policy, yields the same final function configuration (the descriptor's);
in each run the alias ends up targeting that run's just-published version;
the two published versions carry the same code hash and the same
configuration snapshot — the observable target content is identical — but
the target version id advances by exactly one; and each invocation
publishes exactly one new version (not zero, not more). -/
theorem pipeline_idempotent_up_to_target_id (s0 : Store) (code : String)
    (d : DesiredStateDescriptor) (policy : Option Int) :
    functionConfigurationOf (pipeline s0 code d policy).1 d.name = some d.configFields ∧
    functionConfigurationOf (pipeline (pipeline s0 code d policy).1 code d policy).1
      d.name = some d.configFields ∧
    aliasTargetOf (pipeline s0 code d policy).1 d.name d.aliasName
      = some (pipeline s0 code d policy).2.id ∧
    aliasTargetOf (pipeline (pipeline s0 code d policy).1 code d policy).1 d.name
      d.aliasName = some (pipeline (pipeline s0 code d policy).1 code d policy).2.id ∧
    (pipeline s0 code d policy).2.codeHash
      = (pipeline (pipeline s0 code d policy).1 code d policy).2.codeHash ∧
    (pipeline s0 code d policy).2.configurationSnapshot
      = (pipeline (pipeline s0 code d policy).1 code d policy).2.configurationSnapshot ∧
    (pipeline (pipeline s0 code d policy).1 code d policy).2.id
      = (pipeline s0 code d policy).2.id + 1 ∧
    publishesExactlyOne s0 code d ∧
    publishesExactlyOne (pipeline s0 code d policy).1 code d := by
  obtain ⟨g1, hg1, hc1, hn1, ha1, hco1, hs1⟩ := pipeline_state_spec s0 code d policy
  obtain ⟨g2, hg2, hc2, hn2, ha2, hco2, hs2⟩ :=
    pipeline_state_spec (pipeline s0 code d policy).1 code d policy
  refine ⟨by simp [functionConfigurationOf, hg1, hc1],
          by simp [functionConfigurationOf, hg2, hc2],
          ha1, ha2, hco1.trans hco2.symm, hs1.trans hs2.symm, ?_,
          publishesExactlyOne_always s0 code d,
          publishesExactlyOne_always (pipeline s0 code d policy).1 code d⟩
  have h7 : (pipeline (pipeline s0 code d policy).1 code d policy).2.id
      = g1.nextVersionId := by
    cases policy with
    | none => exact reconcileFunction_found_id (pipeline s0 code d none).1 code d g1 hg1
    | some m =>
      exact reconcileFunction_found_id (pipeline s0 code d (some m)).1 code d g1 hg1
  exact h7.trans hn1

end LambdaDeployer
